import Mathlib

/-!
Verification model of the RAG deployment repository.

* `app/rag_utils.py` — `SimpleInMemoryIndex` (an in-memory cosine-similarity
  vector index) and its helpers.  Machine floats are modelled by `ℝ`;
  numpy row/column juggling (`atleast_2d`, `squeeze`, `expand_dims`) is the
  identity on the list-of-rows representation used here.
* `app/ingest_api.py` — the versioned ingestion manifest: `get_manifest` /
  `put_manifest` over the local storage backend (selected when the
  `DATA_BUCKET` environment variable is empty, the default), the
  `/ingest/version` endpoint and the background worker
  `_process_and_update_manifest`.  The filesystem is modelled as a map from
  paths to stored manifests plus an injected per-path write-failure map;
  stored files, when present, are well-formed manifests.

External collaborators (the sentence-transformers embedding model, the
LangChain loader/splitter) are modelled as function parameters, per their
contracts.
-/

namespace RagUtils

/-- A chunk's metadata mapping (`metadata: mapping(string→any)` in the code;
the index never inspects it, only stores and returns it). -/
abbrev Metadata := List (String × String)

/-- One element of the list returned by `SimpleInMemoryIndex.query`:
`{"text": ..., "score": ..., "metadata": ...}`. -/
structure QueryResult where
  text : String
  score : ℝ
  metadata : Metadata

/-- Sum of squares of the entries of a vector (row). -/
def sumSq (v : List ℝ) : ℝ := (v.map (fun x => x ^ 2)).sum

/-- `np.linalg.norm` of one row: the L2 norm. -/
noncomputable def l2norm (v : List ℝ) : ℝ := Real.sqrt (sumSq v)

/-- One row of `self.embeddings / norms` after `norms[norms == 0] = 1.0`:
divide by the row's L2 norm, with zero norms replaced by `1.0` first. -/
noncomputable def normalizeRow (v : List ℝ) : List ℝ :=
  v.map (fun x => x / (if l2norm v = 0 then 1 else l2norm v))

/-- The state built by `SimpleInMemoryIndex.__init__`. -/
structure SimpleInMemoryIndex where
  texts : List String
  metadatas : List Metadata
  embeddings : List (List ℝ)
  normed : List (List ℝ)

/-- `SimpleInMemoryIndex(texts, metadatas)` with the embedding collaborator
`embed` (`_embed_texts`) passed explicitly.  `metadatas or [{} for _ in texts]`
uses Python truthiness: `None` and the empty list are both replaced by a list
of empty mappings. -/
noncomputable def SimpleInMemoryIndex.build (texts : List String)
    (metadatas : Option (List Metadata))
    (embed : List String → List (List ℝ)) : SimpleInMemoryIndex where
  texts := texts
  metadatas :=
    match metadatas with
    | some ms => if ms.isEmpty then texts.map (fun _ => []) else ms
    | none => texts.map (fun _ => [])
  embeddings := embed texts
  normed := (embed texts).map normalizeRow

/-- Dot product of two rows (`row @ qnorm.T`). -/
def dot (a b : List ℝ) : ℝ := (List.zipWith (fun x y => x * y) a b).sum

/-- `q_emb / (np.linalg.norm(q_emb, ...) + 1e-12)`: the query row divided by
its L2 norm plus `1e-12`. -/
noncomputable def qnormalize (q : List ℝ) : List ℝ :=
  q.map (fun x => x / (l2norm q + 1 / 10 ^ 12))

/-- The 1-D similarity vector `sims = (self.normed @ qnorm.T).squeeze()`:
one dot product per stored normalized row, in row order. -/
noncomputable def simsOf (idx : SimpleInMemoryIndex) (qtext : String)
    (embed : List String → List (List ℝ)) : List ℝ :=
  idx.normed.map (fun row => dot row (qnormalize ((embed [qtext]).headD [])))

/-- The contract of `np.argsort(-sims)` with the code's default
`kind='quicksort'`: the result is a permutation of `range(len(sims))` along
which the similarities are non-increasing.  NumPy documents the default
quicksort as *not* stable, so the order of tied indices is an implementation
detail; the model therefore takes the argsort behaviour as a parameter
constrained exactly by this documented contract. -/
def ArgsortSpec (A : List ℝ → List Nat) : Prop :=
  ∀ l : List ℝ, (A l).Perm (List.range l.length) ∧
    (A l).Pairwise (fun i j => l.getD j 0 ≤ l.getD i 0)

/-- `SimpleInMemoryIndex.query(qtext, top_k)`: embed the query (batch of
one), normalize it, take dot products against every stored normalized row,
keep the first `top_k` positions of `np.argsort(-sims)` (modelled by the
argsort behaviour `A`), and return the `(text, score, metadata)` triples. -/
noncomputable def SimpleInMemoryIndex.query (A : List ℝ → List Nat)
    (idx : SimpleInMemoryIndex) (qtext : String)
    (embed : List String → List (List ℝ)) (top_k : Nat) : List QueryResult :=
  ((A (simsOf idx qtext embed)).take top_k).map
    (fun i => ⟨idx.texts.getD i "", (simsOf idx qtext embed).getD i 0,
               idx.metadatas.getD i []⟩)

/-- Ordering on positions of `l` by strictly greater value first, with the
tie-break `tie` on the positions themselves. -/
def relOf (tie : Nat → Nat → Prop) (l : List ℝ) (i j : Nat) : Prop :=
  l.getD j 0 < l.getD i 0 ∨ (l.getD i 0 = l.getD j 0 ∧ tie i j)

noncomputable instance relOfDecidable (tie : Nat → Nat → Prop) (l : List ℝ) :
    DecidableRel (relOf tie l) :=
  Classical.decRel _

/-- An argsort-by-descending-value obtained by insertion sort with the given
tie-break on positions. -/
noncomputable def argsortWith (tie : Nat → Nat → Prop) (l : List ℝ) : List Nat :=
  List.insertionSort (relOf tie l) (List.range l.length)

/-- The stable argsort (ties in ascending position order): the behaviour of
`np.argsort(-sims, kind='stable')`. -/
noncomputable def stableArgsort : List ℝ → List Nat :=
  argsortWith (fun i j => i ≤ j)

/-- An anti-stable argsort (ties in *descending* position order).  It meets
the documented `np.argsort` contract just as well as the stable one. -/
noncomputable def antiArgsort : List ℝ → List Nat :=
  argsortWith (fun i j => j ≤ i)

/-- A fixed embedding collaborator for concrete instances: every text maps
to the 1-dimensional zero vector. -/
def embed0 : List String → List (List ℝ) := fun ts => ts.map (fun _ => [0])

end RagUtils

namespace IngestApi

/-- One element of a manifest's `versions` list.  The dict created by
`ingest_version` carries `version`, `id`, `created_at`, `source`,
`status`, `chunks_indexed` and `index_path` (initially `None`); the worker
may later add `indexed_at` or `error`, modelled as `Option` fields that are
`none` while the key is absent or `None`. -/
structure ManifestEntry where
  version : String
  id : String
  created_at : String
  source : String
  status : String
  chunks_indexed : Nat
  index_path : Option String
  indexed_at : Option String
  error : Option String
deriving DecidableEq

instance : Inhabited ManifestEntry :=
  ⟨⟨"", "", "", "", "", 0, none, none, none⟩⟩

/-- The manifest JSON object: `{"dataset_id": ..., "versions": [...]}`. -/
structure DatasetManifest where
  dataset_id : String
  versions : List ManifestEntry
deriving DecidableEq

/-- The local storage backend (`DATA_BUCKET` empty, the default): a map from
filesystem paths to the manifest stored there, plus a map naming the paths
whose writes fail (and the error message raised there).  Stored files, when
present, hold well-formed manifest JSON. -/
structure Storage where
  files : String → Option DatasetManifest
  putFailure : String → Option String

/-- The local manifest path `./data/{dataset_id}/manifest.json`. -/
def local_manifest_path (dataset_id : String) : String :=
  "./data/" ++ dataset_id ++ "/manifest.json"

/-- Characters of the final path component: everything after the last `/`. -/
def lastComponent : List Char → List Char → List Char
  | [], acc => acc
  | c :: cs, acc => if c = '/' then lastComponent cs [] else lastComponent cs (acc ++ [c])

/-- `os.path.basename`: the final path component. -/
def basename (p : String) : String := ⟨lastComponent p.data []⟩

/-- `_get_manifest_local(path)`: the stored manifest when the file exists,
else `{"dataset_id": os.path.basename(path), "versions": []}`. -/
def _get_manifest_local (st : Storage) (path : String) : DatasetManifest :=
  match st.files path with
  | some m => m
  | none => ⟨basename path, []⟩

/-- `get_manifest(dataset_id)` in the local fallback branch. -/
def get_manifest (st : Storage) (dataset_id : String) : DatasetManifest :=
  _get_manifest_local st (local_manifest_path dataset_id)

/-- `put_manifest(dataset_id, manifest)` in the local fallback branch:
either the write raises (storage unchanged, the error propagates) or the
file now holds exactly the given manifest. -/
def put_manifest (st : Storage) (dataset_id : String) (m : DatasetManifest) :
    Except String Storage :=
  match st.putFailure (local_manifest_path dataset_id) with
  | some msg => .error msg
  | none =>
      .ok { st with
            files := fun p =>
              if p = local_manifest_path dataset_id then some m else st.files p }

/-- Outcome of the `/ingest/version` endpoint. -/
inductive IngestOutcome where
  | ok (dataset_id version task_id : String)
  | duplicateVersion
  | putError (msg : String)
deriving DecidableEq

/-- Result of one `ingest_version` call: the HTTP-level outcome, the storage
afterwards, and the scheduled background tasks
`(dataset_id, version, source, entry_id)`. -/
structure IngestResult where
  outcome : IngestOutcome
  storage : Storage
  tasks : List (String × String × String × String)

/-- `req.version or utcnow().strftime(...)`: Python `or` replaces both
`None` and the empty string by the generated timestamp label. -/
def resolveVersion (reqVersion : Option String) (genVersion : String) : String :=
  match reqVersion with
  | some v => if v = "" then genVersion else v
  | none => genVersion

/-- The fresh PENDING entry dict built by `ingest_version`. -/
def pendingEntry (version newId createdAt source : String) : ManifestEntry :=
  ⟨version, newId, createdAt, source, "PENDING", 0, none, none, none⟩

/-- The `POST /ingest/version` handler `ingest_version`.  The generated
version label, the fresh `uuid4` and the `created_at` timestamp are inputs
(the code draws them from the clock and the RNG). -/
def ingest_version (st : Storage) (dataset_id source : String)
    (reqVersion : Option String) (upsert : Bool)
    (genVersion newId createdAt : String) : IngestResult :=
  let version := resolveVersion reqVersion genVersion
  let manifest := get_manifest st dataset_id
  if manifest.versions.any (fun v => v.version = version) && !upsert then
    ⟨.duplicateVersion, st, []⟩
  else
    let entry := pendingEntry version newId createdAt source
    let manifest' := { manifest with
      versions := manifest.versions.filter (fun v => v.version ≠ version) ++ [entry] }
    match put_manifest st dataset_id manifest' with
    | .error msg => ⟨.putError msg, st, []⟩
    | .ok st' => ⟨.ok dataset_id version newId, st',
                  [(dataset_id, version, source, newId)]⟩

/-- The external collaborators used by the background worker, each fallible
(`Except.error msg` models an exception whose `str` is `msg`), plus the
current time.  Documents and chunks are abstracted to their text content. -/
structure Env where
  load_text_file : String → Except String (List String)
  split_docs : List String → Except String (List String)
  create_or_load_index : List String → Except String Unit
  now : String

/-- Whether the first list of characters is an initial segment of the
second (`str.startswith`, spelled out so that it evaluates). -/
def isPrefixChars : List Char → List Char → Bool
  | [], _ => true
  | _ :: _, [] => false
  | c :: cs, d :: ds => c = d && isPrefixChars cs ds

/-- The body of the worker's `try` block up to and including index
construction: reject `s3://` sources (`source.startswith("s3://")`), then
load, split and build, returning the chunk list on success or the first
exception raised. -/
def tryPipeline (env : Env) (source : String) : Except String (List String) :=
  if isPrefixChars "s3://".data source.data then
    .error ("S3 source not supported in local dev; upload file to sample_docs/"
            ++ " and use local path for now")
  else
    match env.load_text_file source with
    | .error e => .error e
    | .ok docs =>
        match env.split_docs docs with
        | .error e => .error e
        | .ok chunks =>
            match env.create_or_load_index chunks with
            | .error e => .error e
            | .ok _ => .ok chunks

/-- The in-place success mutation: set `status`, `chunks_indexed`,
`index_path` and `indexed_at` on a matching entry. -/
def markIndexed (dataset_id version now : String) (nchunks : Nat)
    (e : ManifestEntry) : ManifestEntry :=
  { e with status := "INDEXED", chunks_indexed := nchunks,
           index_path := some ("/tmp/indexes/" ++ dataset_id ++ "/" ++ version),
           indexed_at := some now }

/-- The in-place failure mutation: set `status` to FAILED and `error` to the
exception's string. -/
def markFailed (msg : String) (e : ManifestEntry) : ManifestEntry :=
  { e with status := "FAILED", error := some msg }

/-- `for v in manifest["versions"]: if v["version"] == version and
v["id"] == entry_id: ...` — apply `f` to every entry matching both keys. -/
def updateMatching (version entry_id : String) (f : ManifestEntry → ManifestEntry)
    (m : DatasetManifest) : DatasetManifest :=
  { m with versions :=
      m.versions.map (fun v => if v.version = version ∧ v.id = entry_id then f v else v) }

/-- The worker's `except` block: re-read the manifest, mark matching entries
FAILED with the exception text, write back.  A write failure here is not
caught and propagates out of the worker. -/
def recordFailure (st : Storage) (dataset_id version entry_id msg : String) :
    Storage × Option String :=
  match put_manifest st dataset_id
      (updateMatching version entry_id (markFailed msg) (get_manifest st dataset_id)) with
  | .ok st' => (st', none)
  | .error e => (st, some e)

/-- `_process_and_update_manifest(dataset_id, version, source, entry_id)`:
run the pipeline; on success re-read the manifest, mark matching entries
INDEXED and write back; any exception up to that point lands in the
`except` block.  Returns the final storage and the uncaught exception, if
any (`none` means the worker terminated normally). -/
def _process_and_update_manifest (env : Env) (st : Storage)
    (dataset_id version source entry_id : String) : Storage × Option String :=
  match tryPipeline env source with
  | .ok chunks =>
      match put_manifest st dataset_id
          (updateMatching version entry_id
            (markIndexed dataset_id version env.now chunks.length)
            (get_manifest st dataset_id)) with
      | .ok st' => (st', none)
      | .error e => recordFailure st dataset_id version entry_id e
  | .error e => recordFailure st dataset_id version entry_id e

/-- A storage holding exactly one manifest, for `dataset_id`, with every
write succeeding. -/
def storeOf (dataset_id : String) (m : DatasetManifest) : Storage :=
  ⟨fun p => if p = local_manifest_path dataset_id then some m else none,
   fun _ => none⟩

/-- The empty storage: no manifest file exists, all writes succeed. -/
def emptyStorage : Storage := ⟨fun _ => none, fun _ => none⟩

/-- An environment whose collaborators all succeed (empty document and chunk
lists). -/
def okEnv : Env :=
  ⟨fun _ => .ok [], fun _ => .ok [], fun _ => .ok (), "t0"⟩

/-- An environment whose loader raises an exception with message `msg`
(splitter and index construction would succeed). -/
def loadFailEnv (msg : String) : Env :=
  ⟨fun _ => .error msg, fun _ => .ok [], fun _ => .ok (), "t1"⟩

/-- A manifest for dataset `ds` holding one PENDING entry `v1`/`id1`. -/
def oneEntryManifest : DatasetManifest :=
  ⟨"ds", [pendingEntry "v1" "id1" "t0" "doc.txt"]⟩

/-- A storage holding `oneEntryManifest` whose every write raises
`"disk full"`. -/
def failingPutStorage : Storage :=
  ⟨fun p => if p = local_manifest_path "ds" then some oneEntryManifest else none,
   fun _ => some "disk full"⟩

/-- The fields of a manifest entry that the worker's success path must leave
unchanged. -/
def framePreserved (old new : ManifestEntry) : Prop :=
  new.version = old.version ∧ new.id = old.id ∧
  new.created_at = old.created_at ∧ new.source = old.source ∧
  new.error = old.error

end IngestApi

/-! ## Helper lemmas -/

theorem list_map_id_of {α : Type} (l : List α) (f : α → α) (h : ∀ a ∈ l, f a = a) :
    l.map f = l := by
  induction l with
  | nil => rfl
  | cons a l ih =>
      simp only [List.map_cons, List.cons.injEq]
      exact ⟨h a (by simp), ih (fun b hb => h b (by simp [hb]))⟩

theorem list_getD_map_lt {α β : Type} (l : List α) (f : α → β) (i : Nat)
    (d : α) (d' : β) (hi : i < l.length) :
    (l.map f).getD i d' = f (l.getD i d) := by
  induction l generalizing i with
  | nil => simp at hi
  | cons a l ih =>
      cases i with
      | zero => rfl
      | succ i => exact ih i (by simpa using hi)

namespace RagUtils

theorem argsortWith_spec (tie : Nat → Nat → Prop)
    (htot : ∀ i j, tie i j ∨ tie j i)
    (htr : ∀ i j k, tie i j → tie j k → tie i k) :
    ArgsortSpec (argsortWith tie) := by
  intro l
  haveI htotal : IsTotal Nat (relOf tie l) := by
    constructor
    intro i j
    rcases lt_trichotomy (l.getD i 0) (l.getD j 0) with h | h | h
    · exact Or.inr (Or.inl h)
    · rcases htot i j with ht | ht
      · exact Or.inl (Or.inr ⟨h, ht⟩)
      · exact Or.inr (Or.inr ⟨h.symm, ht⟩)
    · exact Or.inl (Or.inl h)
  haveI htrans : IsTrans Nat (relOf tie l) := by
    constructor
    intro i j k hij hjk
    rcases hij with h1 | ⟨e1, t1⟩
    · rcases hjk with h2 | ⟨e2, _⟩
      · exact Or.inl (h2.trans h1)
      · exact Or.inl (e2 ▸ h1)
    · rcases hjk with h2 | ⟨e2, t2⟩
      · exact Or.inl (e1 ▸ h2)
      · exact Or.inr ⟨e1.trans e2, htr i j k t1 t2⟩
  constructor
  · simpa [argsortWith] using
      List.perm_insertionSort (relOf tie l) (List.range l.length)
  · have hs := List.sorted_insertionSort (relOf tie l) (List.range l.length)
    have hs' : (argsortWith tie l).Pairwise (relOf tie l) := hs
    refine List.Pairwise.imp ?_ hs'
    intro i j hij
    rcases hij with h | ⟨e, _⟩
    · exact le_of_lt h
    · exact le_of_eq e.symm

theorem stableArgsort_spec : ArgsortSpec stableArgsort :=
  argsortWith_spec _ (fun i j => Nat.le_total i j) (fun _ _ _ h1 h2 => le_trans h1 h2)

theorem antiArgsort_spec : ArgsortSpec antiArgsort :=
  argsortWith_spec _ (fun i j => Nat.le_total j i) (fun _ _ _ h1 h2 => le_trans h2 h1)

end RagUtils

namespace IngestApi

/-- C5: on the local backend (`DATA_BUCKET` empty), requesting the manifest
of a dataset that has none does not fail and yields an empty `versions`
list — but its `dataset_id` field is `os.path.basename` of the *file path*,
i.e. the constant string `"manifest.json"`, not the requested dataset id. -/
theorem get_manifest_missing_dataset :
    get_manifest emptyStorage "docs" = ⟨"manifest.json", []⟩ ∧
    ("manifest.json" : String) ≠ "docs" := by
  exact ⟨rfl, by decide⟩

/-- C4: `ingest_version` answers 400 `DuplicateVersionError` exactly when an
entry with the resolved version label already exists and `upsert` is false;
in that case the storage is untouched and no background task is scheduled. -/
theorem duplicate_version_iff (st : Storage) (dataset_id source : String)
    (reqVersion : Option String) (upsert : Bool)
    (genVersion newId createdAt : String) :
    ((ingest_version st dataset_id source reqVersion upsert genVersion newId
        createdAt).outcome = .duplicateVersion ↔
      ((∃ e ∈ (get_manifest st dataset_id).versions,
          e.version = resolveVersion reqVersion genVersion) ∧ upsert = false)) ∧
    ((ingest_version st dataset_id source reqVersion upsert genVersion newId
        createdAt).outcome = .duplicateVersion →
      (ingest_version st dataset_id source reqVersion upsert genVersion newId
        createdAt).storage = st ∧
      (ingest_version st dataset_id source reqVersion upsert genVersion newId
        createdAt).tasks = []) := by
  by_cases hc : ((get_manifest st dataset_id).versions.any
      (fun v => v.version = resolveVersion reqVersion genVersion) && !upsert) = true
  · have hout : ingest_version st dataset_id source reqVersion upsert genVersion
        newId createdAt = ⟨.duplicateVersion, st, []⟩ := by
      unfold ingest_version
      simp only [hc, if_true]
    rw [Bool.and_eq_true, List.any_eq_true, Bool.not_eq_true'] at hc
    constructor
    · rw [hout]
      simp only [true_iff]
      exact ⟨by simpa using hc.1, hc.2⟩
    · intro _
      rw [hout]
      exact ⟨rfl, rfl⟩
  · have hout : (ingest_version st dataset_id source reqVersion upsert genVersion
        newId createdAt).outcome ≠ .duplicateVersion := by
      unfold ingest_version
      simp only [hc, if_false]
      rcases hput : put_manifest st dataset_id _ with msg | st'
      · simp
      · simp
    rw [Bool.and_eq_true, List.any_eq_true, Bool.not_eq_true'] at hc
    constructor
    · rw [iff_false_intro hout]
      simp only [false_iff]
      intro ⟨⟨e, he, hev⟩, hup⟩
      exact hc ⟨⟨e, he, by simpa using hev⟩, hup⟩
    · intro h
      exact absurd h hout

/-- C3: an upsert for an existing version label removes every prior entry
with that label and appends a single fresh PENDING entry (with the newly
generated id and timestamp) at the end, leaving exactly one entry with that
label in the stored manifest. -/
theorem upsert_single_entry (st : Storage)
    (dataset_id source v genVersion newId createdAt : String)
    (hv : v ≠ "")
    (_hexists : (get_manifest st dataset_id).versions.any
      (fun e => e.version = v) = true)
    (hput : st.putFailure (local_manifest_path dataset_id) = none) :
    ∃ m' : DatasetManifest,
      (ingest_version st dataset_id source (some v) true genVersion newId
          createdAt).storage.files (local_manifest_path dataset_id) = some m' ∧
      m'.versions =
        (get_manifest st dataset_id).versions.filter (fun e => e.version ≠ v)
          ++ [pendingEntry v newId createdAt source] ∧
      m'.versions.countP (fun e => e.version = v) = 1 := by
  have hres : resolveVersion (some v) genVersion = v := by
    simp [resolveVersion, hv]
  refine ⟨{ get_manifest st dataset_id with versions :=
      (get_manifest st dataset_id).versions.filter (fun e => e.version ≠ v)
        ++ [pendingEntry v newId createdAt source] }, ?_, rfl, ?_⟩
  · unfold ingest_version
    rw [hres]
    simp only [Bool.not_true, Bool.and_false, Bool.false_eq_true, if_false]
    unfold put_manifest
    rw [hput]
    simp
  · rw [List.countP_append]
    have h1 : ((get_manifest st dataset_id).versions.filter
        (fun e => e.version ≠ v)).countP (fun e => decide (e.version = v)) = 0 := by
      rw [List.countP_eq_zero]
      intro a ha
      rw [List.mem_filter] at ha
      simpa using ha.2
    rw [h1]
    simp [pendingEntry]

end IngestApi

namespace IngestApi

theorem updateMatching_no_match (version entry_id : String)
    (f : ManifestEntry → ManifestEntry) (m : DatasetManifest)
    (h : ∀ e ∈ m.versions, ¬(e.version = version ∧ e.id = entry_id)) :
    updateMatching version entry_id f m = m := by
  unfold updateMatching
  have hmap : m.versions.map
      (fun v => if v.version = version ∧ v.id = entry_id then f v else v) =
      m.versions :=
    list_map_id_of _ _ (fun a ha => if_neg (h a ha))
  rw [hmap]

theorem get_manifest_put (st : Storage) (ds : String) (m : DatasetManifest)
    (st' : Storage) (h : put_manifest st ds m = .ok st') :
    get_manifest st' ds = m := by
  unfold put_manifest at h
  rcases hf : st.putFailure (local_manifest_path ds) with _ | msg
  · rw [hf] at h
    cases h
    unfold get_manifest _get_manifest_local
    simp
  · rw [hf] at h
    cases h

theorem recordFailure_frame (st : Storage) (ds version entry_id msg : String)
    (hnone : ∀ e ∈ (get_manifest st ds).versions,
        ¬(e.version = version ∧ e.id = entry_id)) :
    (get_manifest (recordFailure st ds version entry_id msg).1 ds).versions =
      (get_manifest st ds).versions := by
  unfold recordFailure
  rw [updateMatching_no_match _ _ _ _ hnone]
  rcases hres : put_manifest st ds (get_manifest st ds) with e | st'
  · rfl
  · exact congrArg DatasetManifest.versions (get_manifest_put st ds _ st' hres)

/-- C6: the worker only mutates entries matching both the version and the
entry id it was invoked with; when no entry in the manifest carries both,
every entry is left unchanged (a stale worker from a superseded upsert
cannot corrupt the newer entry). -/
theorem stale_worker_no_mutation (env : Env) (st : Storage)
    (dataset_id version source entry_id : String)
    (hnone : ∀ e ∈ (get_manifest st dataset_id).versions,
        ¬(e.version = version ∧ e.id = entry_id)) :
    (get_manifest
        (_process_and_update_manifest env st dataset_id version source entry_id).1
        dataset_id).versions = (get_manifest st dataset_id).versions := by
  unfold _process_and_update_manifest
  rcases hp : tryPipeline env source with e | chunks
  · exact recordFailure_frame st dataset_id version entry_id e hnone
  · dsimp only
    rw [updateMatching_no_match _ _ _ _ hnone]
    rcases hres : put_manifest st dataset_id (get_manifest st dataset_id) with e | st'
    · exact recordFailure_frame st dataset_id version entry_id e hnone
    · exact congrArg DatasetManifest.versions (get_manifest_put st dataset_id _ st' hres)

theorem stale_worker_no_mutation_witness :
    (get_manifest (_process_and_update_manifest okEnv (storeOf "ds" oneEntryManifest)
        "ds" "v1" "doc.txt" "id-new").1 "ds").versions =
      (get_manifest (storeOf "ds" oneEntryManifest) "ds").versions :=
  stale_worker_no_mutation okEnv (storeOf "ds" oneEntryManifest) "ds" "v1"
    "doc.txt" "id-new" (by decide)

end IngestApi

namespace IngestApi

theorem duplicate_version_witness :
    (ingest_version (storeOf "ds" oneEntryManifest) "ds" "doc.txt" (some "v1")
        false "g" "id2" "t2").outcome = .duplicateVersion ∧
    (ingest_version (storeOf "ds" oneEntryManifest) "ds" "doc.txt" (some "v1")
        false "g" "id2" "t2").storage = storeOf "ds" oneEntryManifest ∧
    (ingest_version (storeOf "ds" oneEntryManifest) "ds" "doc.txt" (some "v1")
        false "g" "id2" "t2").tasks = [] := by
  have h := duplicate_version_iff (storeOf "ds" oneEntryManifest) "ds" "doc.txt"
    (some "v1") false "g" "id2" "t2"
  have hdup := h.1.mpr ⟨⟨pendingEntry "v1" "id1" "t0" "doc.txt", by decide, rfl⟩, rfl⟩
  exact ⟨hdup, (h.2 hdup).1, (h.2 hdup).2⟩

theorem upsert_single_entry_witness :
    ∃ m' : DatasetManifest,
      (ingest_version (storeOf "ds" oneEntryManifest) "ds" "doc.txt" (some "v1")
          true "g" "id2" "t2").storage.files (local_manifest_path "ds") = some m' ∧
      m'.versions =
        (get_manifest (storeOf "ds" oneEntryManifest) "ds").versions.filter
          (fun e => e.version ≠ "v1") ++ [pendingEntry "v1" "id2" "t2" "doc.txt"] ∧
      m'.versions.countP (fun e => e.version = "v1") = 1 :=
  upsert_single_entry (storeOf "ds" oneEntryManifest) "ds" "doc.txt" "v1" "g"
    "id2" "t2" (by decide) (by decide) rfl

/-- C10: on the success path the worker rewrites the manifest so that every
entry keeps its `version`, `id`, `created_at`, `source` and `error` fields,
and every entry not matching `(version, id)` is written back unchanged. -/
theorem process_success_frame (env : Env) (st : Storage)
    (dataset_id version source entry_id : String) (chunks : List String)
    (hok : tryPipeline env source = .ok chunks)
    (hput : st.putFailure (local_manifest_path dataset_id) = none) :
    ∃ m' : DatasetManifest,
      (_process_and_update_manifest env st dataset_id version source
          entry_id).1.files (local_manifest_path dataset_id) = some m' ∧
      (_process_and_update_manifest env st dataset_id version source
          entry_id).2 = none ∧
      m'.versions.length = (get_manifest st dataset_id).versions.length ∧
      ∀ i, i < (get_manifest st dataset_id).versions.length →
        framePreserved ((get_manifest st dataset_id).versions.getD i default)
          (m'.versions.getD i default) ∧
        (¬(((get_manifest st dataset_id).versions.getD i default).version = version ∧
            ((get_manifest st dataset_id).versions.getD i default).id = entry_id) →
          m'.versions.getD i default =
            (get_manifest st dataset_id).versions.getD i default) := by
  unfold _process_and_update_manifest
  rw [hok]
  unfold put_manifest
  rw [hput]
  refine ⟨updateMatching version entry_id
    (markIndexed dataset_id version env.now chunks.length)
    (get_manifest st dataset_id), by simp, rfl, ?_, ?_⟩
  · unfold updateMatching
    simp
  · intro i hi
    unfold updateMatching
    dsimp only
    rw [list_getD_map_lt _ _ i default default hi]
    by_cases hm : ((get_manifest st dataset_id).versions.getD i default).version
        = version ∧ ((get_manifest st dataset_id).versions.getD i default).id
        = entry_id
    · rw [if_pos hm]
      exact ⟨⟨rfl, rfl, rfl, rfl, rfl⟩, fun hc => absurd hm hc⟩
    · rw [if_neg hm]
      exact ⟨⟨rfl, rfl, rfl, rfl, rfl⟩, fun _ => rfl⟩

theorem process_success_frame_witness :
    ∃ m' : DatasetManifest,
      (_process_and_update_manifest okEnv (storeOf "ds" oneEntryManifest) "ds"
          "v1" "doc.txt" "id1").1.files (local_manifest_path "ds") = some m' ∧
      (_process_and_update_manifest okEnv (storeOf "ds" oneEntryManifest) "ds"
          "v1" "doc.txt" "id1").2 = none ∧
      m'.versions.length =
        (get_manifest (storeOf "ds" oneEntryManifest) "ds").versions.length ∧
      ∀ i, i < (get_manifest (storeOf "ds" oneEntryManifest) "ds").versions.length →
        framePreserved
          ((get_manifest (storeOf "ds" oneEntryManifest) "ds").versions.getD i default)
          (m'.versions.getD i default) ∧
        (¬(((get_manifest (storeOf "ds" oneEntryManifest) "ds").versions.getD i
              default).version = "v1" ∧
            ((get_manifest (storeOf "ds" oneEntryManifest) "ds").versions.getD i
              default).id = "id1") →
          m'.versions.getD i default =
            (get_manifest (storeOf "ds" oneEntryManifest) "ds").versions.getD i
              default) :=
  process_success_frame okEnv (storeOf "ds" oneEntryManifest) "ds" "v1"
    "doc.txt" "id1" [] rfl rfl

/-- C2 (amended): when manifest writes succeed, the worker terminates
normally, and any exception raised while loading, splitting or building the
index is recorded on the matching entries as `status = FAILED` with `error`
equal to the exception's message (which the code does not guarantee to be
non-empty); entries not matching `(version, id)` are written back unchanged. -/
theorem worker_catches_pipeline_failures (env : Env) (st : Storage)
    (dataset_id version source entry_id : String)
    (hput : st.putFailure (local_manifest_path dataset_id) = none) :
    (_process_and_update_manifest env st dataset_id version source entry_id).2
      = none ∧
    ∀ msg, tryPipeline env source = .error msg →
      ∃ m' : DatasetManifest,
        (_process_and_update_manifest env st dataset_id version source
            entry_id).1.files (local_manifest_path dataset_id) = some m' ∧
        m'.versions.length = (get_manifest st dataset_id).versions.length ∧
        ∀ i, i < (get_manifest st dataset_id).versions.length →
          ((((get_manifest st dataset_id).versions.getD i default).version
              = version ∧
            ((get_manifest st dataset_id).versions.getD i default).id
              = entry_id) →
            (m'.versions.getD i default).status = "FAILED" ∧
            (m'.versions.getD i default).error = some msg) ∧
          (¬(((get_manifest st dataset_id).versions.getD i default).version
              = version ∧
            ((get_manifest st dataset_id).versions.getD i default).id
              = entry_id) →
            m'.versions.getD i default =
              (get_manifest st dataset_id).versions.getD i default) := by
  constructor
  · unfold _process_and_update_manifest
    rcases hp : tryPipeline env source with e | chunks
    · unfold recordFailure put_manifest
      rw [hput]
    · unfold put_manifest
      rw [hput]
  · intro msg hmsg
    unfold _process_and_update_manifest
    rw [hmsg]
    unfold recordFailure put_manifest
    rw [hput]
    refine ⟨updateMatching version entry_id (markFailed msg)
      (get_manifest st dataset_id), by simp, ?_, ?_⟩
    · unfold updateMatching
      simp
    · intro i hi
      unfold updateMatching
      dsimp only
      rw [list_getD_map_lt _ _ i default default hi]
      by_cases hm : ((get_manifest st dataset_id).versions.getD i default).version
          = version ∧ ((get_manifest st dataset_id).versions.getD i default).id
          = entry_id
      · rw [if_pos hm]
        exact ⟨fun _ => ⟨rfl, rfl⟩, fun hc => absurd hm hc⟩
      · rw [if_neg hm]
        exact ⟨fun hc => absurd hc hm, fun _ => rfl⟩

theorem worker_catches_witness :
    (storeOf "ds" oneEntryManifest).putFailure (local_manifest_path "ds")
      = none ∧
    (_process_and_update_manifest (loadFailEnv "nope")
        (storeOf "ds" oneEntryManifest) "ds" "v1" "doc.txt" "id1").2 = none :=
  ⟨rfl, (worker_catches_pipeline_failures (loadFailEnv "nope")
    (storeOf "ds" oneEntryManifest) "ds" "v1" "doc.txt" "id1" rfl).1⟩

/-- C2 counterexample: (a) with a storage whose writes fail, a loader
exception reaches the `except` block whose own `put_manifest` raises, and
that exception escapes the worker — it does not always terminate normally;
(b) an exception whose message is empty is recorded with an *empty* `error`
string. -/
theorem worker_failure_counterexample :
    (_process_and_update_manifest (loadFailEnv "boom") failingPutStorage "ds"
        "v1" "doc.txt" "id1").2 = some "disk full" ∧
    ((get_manifest (_process_and_update_manifest (loadFailEnv "")
          (storeOf "ds" oneEntryManifest) "ds" "v1" "doc.txt" "id1").1
        "ds").versions.getD 0 default).status = "FAILED" ∧
    ((get_manifest (_process_and_update_manifest (loadFailEnv "")
          (storeOf "ds" oneEntryManifest) "ds" "v1" "doc.txt" "id1").1
        "ds").versions.getD 0 default).error = some "" :=
  ⟨rfl, rfl, rfl⟩

end IngestApi

namespace RagUtils

theorem sumSq_cons (x : ℝ) (v : List ℝ) : sumSq (x :: v) = x ^ 2 + sumSq v := by
  unfold sumSq
  simp

theorem sumSq_nonneg (v : List ℝ) : 0 ≤ sumSq v := by
  induction v with
  | nil => exact le_refl 0
  | cons x v ih =>
      rw [sumSq_cons]
      exact add_nonneg (sq_nonneg x) ih

theorem sumSq_eq_zero (v : List ℝ) (h : sumSq v = 0) : ∀ x ∈ v, x = 0 := by
  induction v with
  | nil =>
      intro x hx
      simp at hx
  | cons a v ih =>
      rw [sumSq_cons] at h
      have h2 := (add_eq_zero_iff_of_nonneg (sq_nonneg a) (sumSq_nonneg v)).mp h
      intro x hx
      rcases List.mem_cons.mp hx with rfl | hx
      · exact (pow_eq_zero_iff (by norm_num : (2 : ℕ) ≠ 0)).mp h2.1
      · exact ih h2.2 x hx

theorem sumSq_map_div (v : List ℝ) (c : ℝ) :
    sumSq (v.map (fun x => x / c)) = sumSq v / c ^ 2 := by
  induction v with
  | nil => simp [sumSq]
  | cons a v ih => simp [sumSq_cons, ih, div_pow, add_div]

theorem normalizeRow_unit (v : List ℝ) (h : 0 < l2norm v) :
    l2norm (normalizeRow v) = 1 := by
  have hne : l2norm v ≠ 0 := ne_of_gt h
  have hrow : normalizeRow v = v.map (fun x => x / l2norm v) := by
    unfold normalizeRow
    simp only [if_neg hne]
  rw [hrow]
  show Real.sqrt (sumSq (v.map (fun x => x / l2norm v))) = 1
  rw [sumSq_map_div]
  have hs : l2norm v ^ 2 = sumSq v := Real.sq_sqrt (sumSq_nonneg v)
  rw [← hs, div_self (pow_ne_zero 2 hne), Real.sqrt_one]

theorem normalizeRow_zero_norm (v : List ℝ) (h : l2norm v = 0) :
    normalizeRow v = v ∧ ∀ x ∈ v, x = 0 := by
  have hs : sumSq v = 0 := (Real.sqrt_eq_zero (sumSq_nonneg v)).mp h
  constructor
  · unfold normalizeRow
    simp [if_pos h]
  · exact sumSq_eq_zero v hs

/-- C9: after construction, each stored normalized row is the matching
embedding row divided by its norm-or-one; the divisor is never zero, a row
with positive L2 norm is normalized to unit L2 norm, and a row with zero
norm is stored unchanged (and is the all-zero vector). -/
theorem build_normalization (texts : List String)
    (metadatas : Option (List Metadata))
    (embed : List String → List (List ℝ)) (i : Nat)
    (hi : i < (SimpleInMemoryIndex.build texts metadatas embed).embeddings.length) :
    (SimpleInMemoryIndex.build texts metadatas embed).normed.getD i [] =
      normalizeRow
        ((SimpleInMemoryIndex.build texts metadatas embed).embeddings.getD i []) ∧
    (if l2norm ((SimpleInMemoryIndex.build texts metadatas embed).embeddings.getD
          i []) = 0 then (1 : ℝ)
      else l2norm ((SimpleInMemoryIndex.build texts metadatas
          embed).embeddings.getD i [])) ≠ 0 ∧
    (0 < l2norm ((SimpleInMemoryIndex.build texts metadatas embed).embeddings.getD
          i []) →
      l2norm ((SimpleInMemoryIndex.build texts metadatas embed).normed.getD i [])
        = 1) ∧
    (l2norm ((SimpleInMemoryIndex.build texts metadatas embed).embeddings.getD
          i []) = 0 →
      (SimpleInMemoryIndex.build texts metadatas embed).normed.getD i [] =
        (SimpleInMemoryIndex.build texts metadatas embed).embeddings.getD i [] ∧
      ∀ x ∈ (SimpleInMemoryIndex.build texts metadatas embed).embeddings.getD
          i [], x = 0) := by
  have hrow : (SimpleInMemoryIndex.build texts metadatas embed).normed.getD i [] =
      normalizeRow
        ((SimpleInMemoryIndex.build texts metadatas embed).embeddings.getD i []) :=
    list_getD_map_lt _ _ i [] [] hi
  refine ⟨hrow, ?_, ?_, ?_⟩
  · split_ifs with h0
    · exact one_ne_zero
    · exact h0
  · intro hpos
    rw [hrow]
    exact normalizeRow_unit _ hpos
  · intro hzero
    have hz := normalizeRow_zero_norm _ hzero
    exact ⟨hrow.trans hz.1, hz.2⟩

theorem build_normalization_witness :
    0 < (SimpleInMemoryIndex.build ["a"] none embed0).embeddings.length ∧
    (SimpleInMemoryIndex.build ["a"] none embed0).normed.getD 0 [] =
      normalizeRow
        ((SimpleInMemoryIndex.build ["a"] none embed0).embeddings.getD 0 []) := by
  have hlen : 0 < (SimpleInMemoryIndex.build ["a"] none embed0).embeddings.length := by
    simp [SimpleInMemoryIndex.build, embed0]
  exact ⟨hlen, (build_normalization ["a"] none embed0 0 hlen).1⟩

/-- C7: for any argsort behaviour meeting the `np.argsort` contract and any
length-preserving embedding collaborator, `query` returns exactly
`min(top_k, n)` results on an index of `n` entries. -/
theorem query_length (A : List ℝ → List Nat) (hA : ArgsortSpec A)
    (texts : List String) (metadatas : Option (List Metadata))
    (embed : List String → List (List ℝ))
    (hembed : ∀ ts, (embed ts).length = ts.length)
    (qtext : String) (top_k : Nat) (_hk : 1 ≤ top_k) :
    (SimpleInMemoryIndex.query A
        (SimpleInMemoryIndex.build texts metadatas embed) qtext embed
        top_k).length = min top_k texts.length := by
  unfold SimpleInMemoryIndex.query
  rw [List.length_map, List.length_take]
  congr 1
  have hperm := (hA (simsOf (SimpleInMemoryIndex.build texts metadatas embed)
    qtext embed)).1
  rw [hperm.length_eq, List.length_range]
  show ((SimpleInMemoryIndex.build texts metadatas embed).normed.map _).length = _
  rw [List.length_map]
  show ((embed texts).map normalizeRow).length = _
  rw [List.length_map, hembed]

theorem query_length_witness :
    1 ≤ 2 ∧
    (SimpleInMemoryIndex.query stableArgsort
        (SimpleInMemoryIndex.build ["a", "b", "c"] none embed0) "q" embed0
        2).length = min 2 3 := by
  refine ⟨by norm_num, ?_⟩
  have h := query_length stableArgsort stableArgsort_spec ["a", "b", "c"] none
    embed0 (fun ts => by simp [embed0]) "q" 2 (by norm_num)
  simpa using h

/-- C8: an index built from zero chunks (with an embedding collaborator that
returns a well-formed empty batch) answers every query with the empty
sequence, for every `top_k ≥ 1`. -/
theorem query_empty_index (A : List ℝ → List Nat) (hA : ArgsortSpec A)
    (embed : List String → List (List ℝ)) (hE : embed [] = [])
    (qtext : String) (top_k : Nat) (_hk : 1 ≤ top_k) :
    SimpleInMemoryIndex.query A (SimpleInMemoryIndex.build [] none embed) qtext
      embed top_k = [] := by
  have hsims : simsOf (SimpleInMemoryIndex.build [] none embed) qtext embed = [] := by
    show ((SimpleInMemoryIndex.build [] none embed).normed.map _) = []
    show (((embed []).map normalizeRow).map _) = []
    rw [hE]
    rfl
  unfold SimpleInMemoryIndex.query
  rw [hsims]
  have hA0 : A [] = [] := List.Perm.eq_nil ((hA []).1)
  rw [hA0]
  simp

theorem query_empty_index_witness :
    1 ≤ 1 ∧
    SimpleInMemoryIndex.query stableArgsort
      (SimpleInMemoryIndex.build [] none embed0) "q" embed0 1 = [] :=
  ⟨le_refl 1,
   query_empty_index stableArgsort stableArgsort_spec embed0 rfl "q" 1 (le_refl 1)⟩

/-- C1: the code sorts with `np.argsort`'s *default* quicksort, which NumPy
documents as not stable, so the contract it provides does not fix the order
of tied scores.  `antiArgsort` satisfies that documented contract, yet on an
index of two chunks with identical (zero) embeddings — all scores tied — it
returns the chunks in *descending* insertion order, violating the claimed
ascending tie-break.  (Real NumPy exhibits this from 17 tied elements
upward, where its introsort partition starts swapping equal elements; a
stable order would require `np.argsort(-sims, kind='stable')`.) -/
theorem argsort_unstable_tie_order :
    ArgsortSpec antiArgsort ∧
    (SimpleInMemoryIndex.query antiArgsort
        (SimpleInMemoryIndex.build ["chunk0", "chunk1"] none embed0) "q" embed0
        2).map QueryResult.text = ["chunk1", "chunk0"] := by
  refine ⟨antiArgsort_spec, ?_⟩
  have hnr : normalizeRow [(0 : ℝ)] = [0] := by
    simp [normalizeRow, l2norm, sumSq, Real.sqrt_zero]
  have hsims : simsOf (SimpleInMemoryIndex.build ["chunk0", "chunk1"] none embed0)
      "q" embed0 = [0, 0] := by
    simp [simsOf, SimpleInMemoryIndex.build, embed0, hnr, qnormalize, dot]
  have hr : ¬ relOf (fun i j => j ≤ i) [(0 : ℝ), 0] 0 1 := by
    simp [relOf]
  have hA : antiArgsort [(0 : ℝ), 0] = [1, 0] := by
    unfold antiArgsort argsortWith
    rw [show List.range ([(0 : ℝ), 0]).length = [0, 1] by decide]
    simp [List.insertionSort, List.orderedInsert, hr]
  unfold SimpleInMemoryIndex.query
  rw [hsims, hA]
  simp [SimpleInMemoryIndex.build]

end RagUtils
